import Mathlib

/-!
Shallow embedding of `src/code/src/lava/bingmap/geoService.ts`.

The TypeScript module keeps its state in module-level variables
(`_injected`, `_initCache`, `geocodeCache`, `geocodeQueue`, `activeRequests`,
`dequeueTimeoutId`); here that state is an explicit record `St` threaded through
every operation.  JS objects used as string-keyed maps become association lists
(preserving JS property insertion order, which is what `Object.keys` iterates).
Callback invocations (`item.then(...)` / the `then` argument of `query`) are
recorded as `Call` values; a `Call` with `loc = none` models `then(undefined)`.
Scheduled `setTimeout(() => releaseQuota(1))` callbacks are counted in
`Ctx.pending`; `St.tracked` records whether `dequeueTimeoutId` currently names
one of those pending timers (only the timer of the most recent
`completeRequest` is ever stored in `dequeueTimeoutId`; the timers scheduled by
the cache-hit path of `makeRequest`, line 232, are never stored anywhere).
-/

namespace GeoService

/-- `ILocation` (from converter.ts) as geoService.ts uses it.  Coordinates are
modelled as integers; no claim depends on fractional values. -/
structure ILocation where
  latitude : Int
  longitude : Int
  type : String
  name : String
  address : String
  deriving DecidableEq, Repr

/-- JS object read `m[k]`. -/
def alookup (m : List (String × α)) (k : String) : Option α :=
  (m.find? (fun p => p.1 == k)).map (fun p => p.2)

/-- JS object write `m[k] = v`: overwrite the existing property in place, or
append a fresh property (JS objects keep string keys in insertion order). -/
def aset (m : List (String × α)) (k : String) (v : α) : List (String × α) :=
  if (m.find? (fun p => p.1 == k)).isSome then
    m.map (fun p => if p.1 == k then (k, v) else p)
  else m ++ [(k, v)]

/-- JS `delete m[k]`. -/
def aerase (m : List (String × α)) (k : String) : List (String × α) :=
  m.filter (fun p => p.1 != k)

/-- The numeric part of the mutable `settings` record (lines 95–107).  The
credential and URL fields play no role in the modelled behaviour. -/
structure Settings where
  MaxAzureRequest : Nat
  MaxCacheSize : Nat
  MaxCacheSizeOverflow : Nat
  deriving DecidableEq, Repr

/-- The default values of `settings` (lines 97–101). -/
def defaultSettings : Settings := ⟨6, 3000, 1000⟩

/-- `GeocodeQuery` (lines 131–148): free-form text, lowercased key, and the
mutable `_cacheHits` counter. -/
structure GeocodeQuery where
  query : String
  key : String
  hits : Nat
  deriving DecidableEq, Repr

/-- JS `String.prototype.toLowerCase()`, modelled character-wise (the same map
`String.toLower` performs, written so that it reduces in the kernel). -/
def jsToLowerCase (s : String) : String :=
  String.mk (s.data.map Char.toLower)

/-- `new GeocodeQuery(text)` (lines 136–140). -/
def newGeocodeQuery (text : String) : GeocodeQuery :=
  ⟨text, jsToLowerCase text, 0⟩

/-- `IGeocodeCache` (lines 117–120): the stored query object (owning the hit
counter) plus the cached coordinate. -/
structure CacheEntry where
  query : GeocodeQuery
  coordinate : ILocation
  deriving DecidableEq, Repr

/-- The `geocodeCache` table, keyed by `query.key`. -/
abbrev Cache := List (String × CacheEntry)

/-- `IGeocodeQueueItem` (lines 122–125).  The `then` callback is identified by
`id`; its invocations are recorded as `Call` values. -/
structure QueueItem where
  id : Nat
  query : GeocodeQuery
  deriving DecidableEq, Repr

/-- A recorded callback invocation: the item id, the requested text the closure
captured, and the delivered location (`none` models `undefined`). -/
structure Call where
  id : Nat
  text : String
  loc : Option ILocation
  deriving DecidableEq, Repr

/-- `findInCache` (lines 171–178): on a hit, increment the stored query's hit
counter and return the coordinate. -/
def findInCache (cache : Cache) (key : String) : Option (Cache × ILocation) :=
  match alookup cache key with
  | some e =>
      some (aset cache key { e with query := { e.query with hits := e.query.hits + 1 } },
            e.coordinate)
  | none => none

/-- The JS statement `result.address = text` writes through the reference held
by the cache, so the cached coordinate's `address` field changes too. -/
def setCoordAddress (cache : Cache) (key : String) (text : String) : Cache :=
  match alookup cache key with
  | some e => aset cache key { e with coordinate := { e.coordinate with address := text } }
  | none => cache

/-- The comparator body of line 187–189: `geocodeCache[a].query.getCacheHits()`. -/
def hitOf (cache : Cache) (k : String) : Nat :=
  match alookup cache k with
  | some e => e.query.hits
  | none => 0

/-- `cacheQuery` (lines 180–198).  When the current size exceeds
`MaxCacheSize + MaxCacheSizeOverflow`, the keys are sorted ascending by hit
count (`Array.prototype.sort` with the comparator of lines 186–190; a stable
sort, modelled by `List.insertionSort`) and the first
`cacheSize - MaxCacheSize` of them are deleted; then the new entry is stored
under `query.key`. -/
def cacheQuery (s : Settings) (cache : Cache) (query : GeocodeQuery)
    (coordinate : ILocation) : Cache :=
  let ks := cache.map Prod.fst
  let cacheSize := ks.length
  let cache1 :=
    if cacheSize > s.MaxCacheSize + s.MaxCacheSizeOverflow then
      let sorted := List.insertionSort (fun a b => hitOf cache a ≤ hitOf cache b) ks
      (sorted.take (cacheSize - s.MaxCacheSize)).foldl (fun c k => aerase c k) cache
    else cache
  aset cache1 query.key { query := query, coordinate := coordinate }

/-- The module state touched while the `releaseQuota` loop drains the queue.
`pending` counts scheduled `setTimeout(() => releaseQuota(1))` callbacks that
have not run yet. -/
structure Ctx where
  cache : Cache
  inflight : List QueueItem
  pending : Nat
  deriving DecidableEq, Repr

/-- Full module state.  `tracked` says whether `dequeueTimeoutId` currently
names one of the `pending` timers. -/
structure St where
  injected : List (String × Option ILocation)
  initc : List (String × ILocation)
  ctx : Ctx
  queue : List QueueItem
  active : Int
  tracked : Bool
  deriving DecidableEq, Repr

/-- The synchronous part of `makeRequest` (lines 227–235 and 263): a dispatch
-time cache hit schedules an (untracked) `releaseQuota(1)` timer, rewrites the
cached coordinate's address and invokes the callback; otherwise the `fetch`
is issued and the item becomes in-flight. -/
def makeRequest (c : Ctx) (item : QueueItem) : Ctx × List Call :=
  match findInCache c.cache item.query.key with
  | some (cache1, coord) =>
      let cache2 := setCoordAddress cache1 item.query.key item.query.query
      ({ c with cache := cache2, pending := c.pending + 1 },
       [{ id := item.id, text := item.query.query,
          loc := some { coord with address := item.query.query } }])
  | none =>
      ({ c with inflight := c.inflight ++ [item] }, [])

/-- Result of the `while` loop of `releaseQuota` (lines 219–223). -/
structure DrainRes where
  active : Int
  ctx : Ctx
  queue : List QueueItem
  dispatched : List QueueItem
  calls : List Call
  deriving Repr

/-- The `while (activeRequests < settings.MaxAzureRequest)` loop of
`releaseQuota`: shift the queue head, increment `activeRequests`, hand the item
to `makeRequest`; stop when the queue is empty or the cap is reached.
`dispatched` records the items handed to `makeRequest`, in order. -/
def drainGo (cap : Nat) : Int → Ctx → List QueueItem → DrainRes
  | active, c, [] => ⟨active, c, [], [], []⟩
  | active, c, item :: rest =>
      if active < (cap : Int) then
        let mr := makeRequest c item
        let r := drainGo cap (active + 1) mr.1 rest
        ⟨r.active, r.ctx, r.queue, item :: r.dispatched, mr.2 ++ r.calls⟩
      else ⟨active, c, item :: rest, [], []⟩

/-- `releaseQuota` (lines 217–224). -/
def releaseQuota (s : Settings) (st : St) (decrement : Int) : St × List Call :=
  let r := drainGo s.MaxAzureRequest (st.active - decrement) st.ctx st.queue
  ({ st with active := r.active, ctx := r.ctx, queue := r.queue }, r.calls)

/-- `geocodeCore` (lines 200–209). -/
def geocodeCore (s : Settings) (st : St) (item : QueueItem) : St × List Call :=
  match findInCache st.ctx.cache item.query.key with
  | some (cache1, result) =>
      let cache2 := setCoordAddress cache1 item.query.key item.query.query
      ({ st with ctx := { st.ctx with cache := cache2 } },
       [{ id := item.id, text := item.query.query,
          loc := some { result with address := item.query.query } }])
  | none =>
      releaseQuota s { st with queue := st.queue ++ [item] } 0

/-- `query(addr, then)` (lines 56–72), the asynchronous resolution path.  A
truthy `_injected[addr]` wins; otherwise `addr in _initCache` (a presence
test); otherwise `geocodeCore` with a fresh `GeocodeQuery`.  The JS statement
`loc.address = addr` mutates the stored object, so the owning table is updated
as well. -/
def queryAsync (s : Settings) (st : St) (id : Nat) (addr : String) : St × List Call :=
  match alookup st.injected addr with
  | some (some loc) =>
      let loc1 := { loc with address := addr }
      ({ st with injected := aset st.injected addr (some loc1) },
       [{ id := id, text := addr, loc := some loc1 }])
  | _ =>
      match alookup st.initc addr with
      | some loc =>
          let loc1 := { loc with address := addr }
          ({ st with initc := aset st.initc addr loc1 },
           [{ id := id, text := addr, loc := some loc1 }])
      | none => geocodeCore s st { id := id, query := newGeocodeQuery addr }

/-- `query(addr)` (lines 73–86), the synchronous cache-only lookup.  Returns
the result plus the updated state (a geocode-cache hit increments the stored
hit counter; no address rewriting happens on this path). -/
def querySync (st : St) (addr : String) : Option ILocation × St :=
  match alookup st.injected addr with
  | some (some loc) => (some loc, st)
  | _ =>
      match alookup st.initc addr with
      | some loc => (some loc, st)
      | none =>
          match alookup st.ctx.cache (jsToLowerCase addr) with
          | some e =>
              let cache1 := aset st.ctx.cache (jsToLowerCase addr)
                { e with query := { e.query with hits := e.query.hits + 1 } }
              (some e.coordinate, { st with ctx := { st.ctx with cache := cache1 } })
          | none => (none, st)

/-- The error values that can reach `completeRequest`. -/
inductive JsErr where
  | referenceError
  | emptyResult
  | transport
  deriving DecidableEq, Repr

/-- `completeRequest` (lines 311–321).  It first stores a fresh
`setTimeout(() => releaseQuota(1), 0)` in `dequeueTimeoutId` (making it the
tracked timer; a previously tracked timer keeps pending but loses its handle).
On error the callback gets `undefined`; on success the coordinate is cached and
its address rewritten (the JS mutation happens after `cacheQuery` stores the
reference, so the cached entry carries the rewritten address too).  The
`error = none`, `coordinate = none` combination never occurs at any call site
(in JS it would throw); it is mapped to the error behaviour. -/
def completeRequest (s : Settings) (st : St) (item : QueueItem) (error : Option JsErr)
    (coordinate : Option ILocation) : St × List Call :=
  let st1 := { st with ctx := { st.ctx with pending := st.ctx.pending + 1 }, tracked := true }
  match error, coordinate with
  | none, some coord =>
      let coord1 := { coord with address := item.query.query }
      ({ st1 with ctx := { st1.ctx with cache := cacheQuery s st1.ctx.cache item.query coord1 } },
       [{ id := item.id, text := item.query.query, loc := some coord1 }])
  | _, _ => (st1, [{ id := item.id, text := item.query.query, loc := none }])

/-- One element of the provider's `data.results` array.  The nested
`position.lat` / `position.lon` are flattened; `Option` fields model
absent/falsy JS values. -/
structure Candidate where
  lat : Int
  lon : Int
  type : Option String
  poiName : Option String
  freeformAddress : Option String
  deriving DecidableEq, Repr

/-- Line 281 calls `getBestResultIndexAzure`, an identifier defined nowhere in
the repository (the selection function the file defines, at line 323, is named
`getBestResultIndex`).  Evaluating the call therefore throws a
`ReferenceError`, which the promise `.catch` of line 302 receives; modelled as
`Except.error`. -/
def getBestResultIndexAzure (_results : List Candidate) (_query : GeocodeQuery) :
    Except JsErr Nat :=
  .error .referenceError

/-- `getBestResultIndex` (lines 323–325): the selection function the file
actually defines — always index 0 — but which no code calls. -/
def getBestResultIndex (_resources : List Candidate) (_query : GeocodeQuery) : Nat := 0

/-- The mapping of lines 284–298, applied to a chosen candidate. -/
def candidateToLocation (best : Candidate) (text : String) : ILocation :=
  { latitude := best.lat
    longitude := best.lon
    type := (match best.type with | some t => t | none => "Geography")
    name :=
      (match best.poiName with
       | some n => n
       | none =>
           match best.freeformAddress with
           | some a => a
           | none => text)
    address := text }

/-- The response continuation of `makeRequest` (lines 268–305): `none` input
models a transport failure or non-ok HTTP status (promise rejection caught at
line 302); a present but empty result list is `ERROR_EMPTY` (line 277);
otherwise the handler evaluates `getBestResultIndexAzure`, whose thrown
`ReferenceError` also lands in the `.catch`.  The returned pair is what gets
passed to `completeRequest`. -/
def handleResponse (item : QueueItem) (data : Option (List Candidate)) :
    Option JsErr × Option ILocation :=
  match data with
  | none => (some .transport, none)
  | some results =>
      if results.length < 1 then (some .emptyResult, none)
      else
        match getBestResultIndexAzure results item.query with
        | .error e => (some e, none)
        | .ok index =>
            match results.get? index with
            | none => (some .transport, none)
            | some best => (none, some (candidateToLocation best item.query.query))

/-- The intended response handling (what lines 274–300 compute once the
selector is reachable under its defined name `getBestResultIndex`); kept for
comparison with the broken `handleResponse`. -/
def handleResponseIntended (item : QueueItem) (data : Option (List Candidate)) :
    Option JsErr × Option ILocation :=
  match data with
  | none => (some .transport, none)
  | some results =>
      if results.length < 1 then (some .emptyResult, none)
      else
        match results.get? (getBestResultIndex results item.query) with
        | none => (some .transport, none)
        | some best => (none, some (candidateToLocation best item.query.query))

/-- A provider response settling for an in-flight item: the fetch continuation
of lines 263–305 followed by `completeRequest`. -/
def respondStep (s : Settings) (st : St) (id : Nat) (data : Option (List Candidate)) :
    St × List Call :=
  match st.ctx.inflight.find? (fun it => it.id == id) with
  | none => (st, [])
  | some item =>
      let st1 := { st with ctx :=
        { st.ctx with inflight := st.ctx.inflight.filter (fun it => it.id != id) } }
      let ec := handleResponse item data
      completeRequest s st1 item ec.1 ec.2

/-- One pending `setTimeout(() => releaseQuota(1))` fires.  `wasTracked` says
whether the fired timer is the one `dequeueTimeoutId` currently names. -/
def fireStep (s : Settings) (st : St) (wasTracked : Bool) : St × List Call :=
  if st.ctx.pending = 0 then (st, [])
  else
    releaseQuota s
      { st with ctx := { st.ctx with pending := st.ctx.pending - 1 },
                tracked := st.tracked && !wasTracked } 1

/-- `inject` (lines 9–24).  With `reset = true` the supplied table replaces
`_injected` wholesale — falsy values included.  Otherwise a per-key merge: a
truthy value is stored, a falsy value deletes the key. -/
def inject (locs : List (String × Option ILocation)) (reset : Bool)
    (injected : List (String × Option ILocation)) : List (String × Option ILocation) :=
  if reset then locs
  else
    locs.foldl
      (fun inj kv =>
        match kv.2 with
        | some loc => aset inj kv.1 (some loc)
        | none => aerase inj kv.1)
      injected

/-- `remove` (lines 26–32): drop every entry whose (possibly falsy) value
satisfies the predicate. -/
def removeWhere (pred : Option ILocation → Bool)
    (injected : List (String × Option ILocation)) : List (String × Option ILocation) :=
  injected.filter (fun kv => !pred kv.2)

/-- `getCacheSize` (lines 213–215). -/
def getCacheSize (st : St) : Nat := st.ctx.cache.length

/-- `reset` (lines 327–333, textually duplicated at 347–353 with the same
body): clear the cache and the queue, zero `activeRequests`, and
`clearTimeout(dequeueTimeoutId)` — which cancels only the single timer
`dequeueTimeoutId` names, when it names one.  In-flight fetches keep running. -/
def reset (st : St) : St :=
  { st with
    ctx := { cache := [], inflight := st.ctx.inflight,
             pending := st.ctx.pending - (if st.tracked then 1 else 0) },
    queue := [], active := 0, tracked := false }

/-- `initCache` (lines 90–92): `copy` takes a value copy, which is the identity
in this value-level model. -/
def initCacheSet (locs : List (String × ILocation)) (st : St) : St :=
  { st with initc := locs }

/-- The observable events of the single-threaded execution: public entry
points, timer macrotasks, and provider responses. -/
inductive Ev where
  | submit (id : Nat) (addr : String)
  | fire (wasTracked : Bool)
  | respond (id : Nat) (data : Option (List Candidate))
  | doReset
  | doInject (locs : List (String × Option ILocation)) (rst : Bool)
  | doRemove (pred : Option ILocation → Bool)
  | doInitCache (locs : List (String × ILocation))

/-- One event step, returning the new state and the callback invocations the
step performed. -/
def step (s : Settings) (st : St) : Ev → St × List Call
  | .submit id addr => queryAsync s st id addr
  | .fire w => fireStep s st w
  | .respond id data => respondStep s st id data
  | .doReset => (reset st, [])
  | .doInject locs rst => ({ st with injected := inject locs rst st.injected }, [])
  | .doRemove pred => ({ st with injected := removeWhere pred st.injected }, [])
  | .doInitCache locs => (initCacheSet locs st, [])

/-- Run a sequence of events, accumulating every callback invocation. -/
def runTrace (s : Settings) (st : St) : List Ev → St × List Call
  | [] => (st, [])
  | ev :: evs =>
      let sc := step s st ev
      let rest := runTrace s sc.1 evs
      (rest.1, sc.2 ++ rest.2)

/-- The state after module load (line 355 runs `reset()` over uninitialized
variables, leaving every table empty). -/
def initialState : St := ⟨[], [], ⟨[], [], 0⟩, [], 0, false⟩

end GeoService

namespace GeoService

/-! ### Association-list helper lemmas -/

theorem find?_key_isSome (m : List (String × α)) (k : String) :
    (m.find? (fun p => p.1 == k)).isSome ↔ k ∈ m.map Prod.fst := by
  induction m with
  | nil => simp
  | cons p m ih =>
      by_cases h : p.1 = k
      · simp [List.find?_cons, h]
      · have hb : (p.1 == k) = false := beq_false_of_ne h
        simp only [List.find?_cons, hb, List.map_cons, List.mem_cons]
        rw [ih]
        constructor
        · exact Or.inr
        · intro hk
          rcases hk with hk | hk
          · exact absurd hk.symm h
          · exact hk

theorem alookup_isSome_iff (m : List (String × α)) (k : String) :
    (alookup m k).isSome ↔ k ∈ m.map Prod.fst := by
  rw [← find?_key_isSome m k]
  unfold alookup
  cases m.find? (fun p => p.1 == k) <;> simp

theorem alookup_eq_some_of_mem {m : List (String × α)} {p : String × α}
    (hnd : (m.map Prod.fst).Nodup) (hp : p ∈ m) : alookup m p.1 = some p.2 := by
  induction m with
  | nil => cases hp
  | cons q m ih =>
      rcases List.mem_cons.mp hp with hp | hp
      · subst hp
        simp [alookup, List.find?_cons]
      · have hq : q.1 ≠ p.1 := by
          simp only [List.map_cons, List.nodup_cons] at hnd
          intro he
          exact hnd.1 (he ▸ List.mem_map_of_mem Prod.fst hp)
        have hnd' : (m.map Prod.fst).Nodup := by
          simp only [List.map_cons, List.nodup_cons] at hnd
          exact hnd.2
        have := ih hnd' hp
        simpa [alookup, List.find?_cons, beq_false_of_ne hq] using this

theorem aset_of_not_mem {m : List (String × α)} {k : String} (v : α)
    (h : k ∉ m.map Prod.fst) : aset m k v = m ++ [(k, v)] := by
  unfold aset
  rw [if_neg]
  intro hs
  exact h ((find?_key_isSome m k).mp hs)

theorem length_aset_le (m : List (String × α)) (k : String) (v : α) :
    (aset m k v).length ≤ m.length + 1 := by
  unfold aset
  split
  · simp
  · simp

theorem map_fst_filter (m : List (String × α)) (f : String → Bool) :
    (m.filter (fun p => f p.1)).map Prod.fst = (m.map Prod.fst).filter f := by
  induction m with
  | nil => rfl
  | cons p m ih =>
      by_cases h : f p.1
      · simp [List.filter_cons, h, ih]
      · simp only [Bool.not_eq_true] at h
        simp [List.filter_cons, h, ih]

theorem foldl_aerase_eq_filter (ks : List String) (m : List (String × α)) :
    ks.foldl (fun c k => aerase c k) m = m.filter (fun p => !(decide (p.1 ∈ ks))) := by
  induction ks generalizing m with
  | nil => simp
  | cons k ks ih =>
      rw [List.foldl_cons, ih]
      unfold aerase
      rw [List.filter_filter]
      apply List.filter_congr
      intro p _
      by_cases h : p.1 = k <;> simp [h]

theorem length_filter_key_mem {m : List (String × α)} {ks : List String}
    (hnd : (m.map Prod.fst).Nodup) (hks : ks.Nodup)
    (hsub : ∀ x ∈ ks, x ∈ m.map Prod.fst) :
    (m.filter (fun p => decide (p.1 ∈ ks))).length = ks.length := by
  have hmap : (m.filter (fun p => decide (p.1 ∈ ks))).map Prod.fst
      = (m.map Prod.fst).filter (fun x => decide (x ∈ ks)) :=
    map_fst_filter m (fun x => decide (x ∈ ks))
  have h1 : (m.filter (fun p => decide (p.1 ∈ ks))).length
      = ((m.map Prod.fst).filter (fun x => decide (x ∈ ks))).length := by
    rw [← hmap, List.length_map]
  rw [h1]
  have hnd2 : ((m.map Prod.fst).filter (fun x => decide (x ∈ ks))).Nodup :=
    hnd.filter _
  have hperm : ((m.map Prod.fst).filter (fun x => decide (x ∈ ks))).Perm ks := by
    rw [List.perm_ext_iff_of_nodup hnd2 hks]
    intro a
    simp only [List.mem_filter, decide_eq_true_eq]
    exact ⟨fun h => h.2, fun h => ⟨hsub a h, h⟩⟩
  exact hperm.length_eq

end GeoService

namespace GeoService

/-! ### Lemmas about `makeRequest` and the `releaseQuota` drain loop -/

/-- Property of a recorded call: any delivered location carries the requested
text in its `address` field. -/
def CallAddrOk (call : Call) : Prop :=
  ∀ l, call.loc = some l → l.address = call.text

theorem makeRequest_calls (c : Ctx) (item : QueueItem) :
    ∀ call ∈ (makeRequest c item).2, call.id = item.id ∧ CallAddrOk call := by
  unfold makeRequest
  split
  · intro call hc
    simp only [List.mem_singleton] at hc
    subst hc
    refine ⟨rfl, ?_⟩
    intro l hl
    simp only [Option.some.injEq] at hl
    subst hl
    rfl
  · intro call hc
    cases hc

theorem makeRequest_inflight (c : Ctx) (item : QueueItem) :
    ∀ x ∈ (makeRequest c item).1.inflight, x ∈ c.inflight ∨ x = item := by
  unfold makeRequest
  split
  · intro x hx
    exact Or.inl hx
  · intro x hx
    simp only [List.mem_append, List.mem_singleton] at hx
    exact hx

theorem drainGo_dispatched_append (cap : Nat) (a : Int) (c : Ctx) (q : List QueueItem) :
    (drainGo cap a c q).dispatched ++ (drainGo cap a c q).queue = q := by
  induction q generalizing a c with
  | nil => rfl
  | cons item rest ih =>
      unfold drainGo
      by_cases h : a < (cap : Int)
      · simp only [h, if_pos]
        simpa using ih (a + 1) (makeRequest c item).1
      · simp [h]

theorem drainGo_active_le (cap : Nat) (a : Int) (c : Ctx) (q : List QueueItem)
    (h : a ≤ (cap : Int)) : (drainGo cap a c q).active ≤ (cap : Int) := by
  induction q generalizing a c with
  | nil => exact h
  | cons item rest ih =>
      unfold drainGo
      by_cases hlt : a < (cap : Int)
      · simp only [hlt, if_pos]
        exact ih (a + 1) (makeRequest c item).1 (by omega)
      · simpa [hlt] using h

theorem drainGo_calls (cap : Nat) (a : Int) (c : Ctx) (q : List QueueItem) :
    ∀ call ∈ (drainGo cap a c q).calls,
      call.id ∈ q.map QueueItem.id ∧ CallAddrOk call := by
  induction q generalizing a c with
  | nil => intro call hc; cases hc
  | cons item rest ih =>
      unfold drainGo
      by_cases h : a < (cap : Int)
      · simp only [h, if_pos]
        intro call hc
        simp only [List.mem_append] at hc
        rcases hc with hc | hc
        · have := makeRequest_calls c item call hc
          exact ⟨by simp [this.1], this.2⟩
        · have := ih (a + 1) (makeRequest c item).1 call hc
          exact ⟨by simp [List.mem_cons]; exact Or.inr (by simpa using this.1), this.2⟩
      · intro call hc
        simp [h] at hc

theorem drainGo_inflight (cap : Nat) (a : Int) (c : Ctx) (q : List QueueItem) :
    ∀ x ∈ (drainGo cap a c q).ctx.inflight, x ∈ c.inflight ∨ x ∈ q := by
  induction q generalizing a c with
  | nil => intro x hx; exact Or.inl hx
  | cons item rest ih =>
      unfold drainGo
      by_cases h : a < (cap : Int)
      · simp only [h, if_pos]
        intro x hx
        rcases ih (a + 1) (makeRequest c item).1 x hx with hx1 | hx1
        · rcases makeRequest_inflight c item x hx1 with hx2 | hx2
          · exact Or.inl hx2
          · exact Or.inr (by simp [hx2])
        · exact Or.inr (List.mem_cons_of_mem _ hx1)
      · intro x hx
        simp only [h, if_neg, not_false_iff] at hx
        exact Or.inl hx

end GeoService

namespace GeoService

theorem drainGo_queue_mem (cap : Nat) (a : Int) (c : Ctx) (q : List QueueItem) :
    ∀ x ∈ (drainGo cap a c q).queue, x ∈ q := by
  intro x hx
  rw [← drainGo_dispatched_append cap a c q]
  exact List.mem_append_right _ hx

theorem completeRequest_skeleton (s : Settings) (st : St) (item : QueueItem)
    (e : Option JsErr) (co : Option ILocation) :
    (completeRequest s st item e co).1.active = st.active ∧
    (completeRequest s st item e co).1.queue = st.queue ∧
    (completeRequest s st item e co).1.ctx.inflight = st.ctx.inflight := by
  unfold completeRequest
  split <;> exact ⟨rfl, rfl, rfl⟩

theorem completeRequest_calls (s : Settings) (st : St) (item : QueueItem)
    (e : Option JsErr) (co : Option ILocation) :
    ∀ call ∈ (completeRequest s st item e co).2,
      call.id = item.id ∧ call.text = item.query.query ∧ CallAddrOk call := by
  unfold completeRequest
  split
  · intro call hc
    simp only [List.mem_singleton] at hc
    subst hc
    refine ⟨rfl, rfl, ?_⟩
    intro l hl
    simp only [Option.some.injEq] at hl
    subst hl
    rfl
  · intro call hc
    simp only [List.mem_singleton] at hc
    subst hc
    exact ⟨rfl, rfl, fun l hl => by cases hl⟩

theorem completeRequest_error (s : Settings) (st : St) (item : QueueItem) (err : JsErr)
    (co : Option ILocation) :
    (completeRequest s st item (some err) co).1.ctx.cache = st.ctx.cache ∧
    (completeRequest s st item (some err) co).2
      = [{ id := item.id, text := item.query.query, loc := none }] := by
  unfold completeRequest
  exact ⟨rfl, rfl⟩

theorem releaseQuota_active_le (s : Settings) (st : St) (d : Int)
    (hd : 0 ≤ d) (h : st.active ≤ (s.MaxAzureRequest : Int)) :
    (releaseQuota s st d).1.active ≤ (s.MaxAzureRequest : Int) := by
  unfold releaseQuota
  exact drainGo_active_le _ _ _ _ (by omega)

theorem releaseQuota_idFree (s : Settings) (st : St) (d : Int) (id : Nat)
    (hq : id ∉ st.queue.map QueueItem.id) (hi : id ∉ st.ctx.inflight.map QueueItem.id) :
    (id ∉ (releaseQuota s st d).1.queue.map QueueItem.id ∧
     id ∉ (releaseQuota s st d).1.ctx.inflight.map QueueItem.id) ∧
    ∀ call ∈ (releaseQuota s st d).2, call.id ≠ id := by
  unfold releaseQuota
  refine ⟨⟨?_, ?_⟩, ?_⟩
  · intro hmem
    rcases List.mem_map.mp hmem with ⟨x, hx, hxid⟩
    exact hq (List.mem_map.mpr ⟨x, drainGo_queue_mem _ _ _ _ x hx, hxid⟩)
  · intro hmem
    rcases List.mem_map.mp hmem with ⟨x, hx, hxid⟩
    rcases drainGo_inflight _ _ _ _ x hx with h1 | h1
    · exact hi (List.mem_map.mpr ⟨x, h1, hxid⟩)
    · exact hq (List.mem_map.mpr ⟨x, h1, hxid⟩)
  · intro call hc hcid
    have := (drainGo_calls _ _ _ _ call hc).1
    exact hq (hcid ▸ this)

theorem releaseQuota_calls_addrok (s : Settings) (st : St) (d : Int) :
    ∀ call ∈ (releaseQuota s st d).2, CallAddrOk call := by
  unfold releaseQuota
  intro call hc
  exact (drainGo_calls _ _ _ _ call hc).2

end GeoService

namespace GeoService

theorem step_active_le (s : Settings) (st : St) (ev : Ev)
    (h : st.active ≤ (s.MaxAzureRequest : Int)) :
    (step s st ev).1.active ≤ (s.MaxAzureRequest : Int) := by
  cases ev with
  | submit id addr =>
      show (queryAsync s st id addr).1.active ≤ _
      unfold queryAsync
      split
      · exact h
      · split
        · exact h
        · unfold geocodeCore
          split
          · exact h
          · exact releaseQuota_active_le s _ 0 le_rfl h
  | fire w =>
      show (fireStep s st w).1.active ≤ _
      unfold fireStep
      split
      · exact h
      · exact releaseQuota_active_le s _ 1 (by norm_num) h
  | respond id data =>
      show (respondStep s st id data).1.active ≤ _
      unfold respondStep
      split
      · exact h
      · rw [(completeRequest_skeleton _ _ _ _ _).1]
        exact h
  | doReset =>
      show (reset st).active ≤ _
      simp [reset]
  | doInject locs rst => exact h
  | doRemove pred => exact h
  | doInitCache locs => exact h

theorem runTrace_active_le (s : Settings) :
    ∀ (evs : List Ev) (st : St), st.active ≤ (s.MaxAzureRequest : Int) →
      (runTrace s st evs).1.active ≤ (s.MaxAzureRequest : Int)
  | [], _, h => h
  | ev :: evs, st, h => runTrace_active_le s evs (step s st ev).1 (step_active_le s st ev h)

theorem step_calls_addrok (s : Settings) (st : St) (ev : Ev) :
    ∀ call ∈ (step s st ev).2, CallAddrOk call := by
  cases ev with
  | submit id addr =>
      show ∀ call ∈ (queryAsync s st id addr).2, _
      unfold queryAsync
      split
      · intro call hc
        simp only [List.mem_singleton] at hc
        subst hc
        intro l hl
        simp only [Option.some.injEq] at hl
        subst hl
        rfl
      · split
        · intro call hc
          simp only [List.mem_singleton] at hc
          subst hc
          intro l hl
          simp only [Option.some.injEq] at hl
          subst hl
          rfl
        · unfold geocodeCore
          split
          · intro call hc
            simp only [List.mem_singleton] at hc
            subst hc
            intro l hl
            simp only [Option.some.injEq] at hl
            subst hl
            rfl
          · exact releaseQuota_calls_addrok s _ 0
  | fire w =>
      show ∀ call ∈ (fireStep s st w).2, _
      unfold fireStep
      split
      · intro call hc
        cases hc
      · exact releaseQuota_calls_addrok s _ 1
  | respond id data =>
      show ∀ call ∈ (respondStep s st id data).2, _
      unfold respondStep
      split
      · intro call hc
        cases hc
      · intro call hc
        exact (completeRequest_calls _ _ _ _ _ call hc).2.2
  | doReset => intro call hc; cases hc
  | doInject locs rst => intro call hc; cases hc
  | doRemove pred => intro call hc; cases hc
  | doInitCache locs => intro call hc; cases hc

end GeoService

namespace GeoService

/-- The item id `id` appears neither in the queue nor among the in-flight
requests. -/
def IdFree (id : Nat) (st : St) : Prop :=
  id ∉ st.queue.map QueueItem.id ∧ id ∉ st.ctx.inflight.map QueueItem.id

theorem step_idFree (s : Settings) (st : St) (ev : Ev) (id : Nat)
    (h : IdFree id st) (hev : ∀ a, ev ≠ .submit id a) :
    IdFree id (step s st ev).1 ∧ ∀ call ∈ (step s st ev).2, call.id ≠ id := by
  obtain ⟨hq, hi⟩ := h
  cases ev with
  | submit sid addr =>
      have hne : sid ≠ id := by
        intro he
        exact hev addr (by rw [he])
      simp only [step]
      unfold queryAsync
      split
      · refine ⟨⟨hq, hi⟩, ?_⟩
        intro call hc
        simp only [List.mem_singleton] at hc
        subst hc
        exact hne
      · split
        · refine ⟨⟨hq, hi⟩, ?_⟩
          intro call hc
          simp only [List.mem_singleton] at hc
          subst hc
          exact hne
        · unfold geocodeCore
          split
          · refine ⟨⟨hq, hi⟩, ?_⟩
            intro call hc
            simp only [List.mem_singleton] at hc
            subst hc
            exact hne
          · have hq' : id ∉ (st.queue ++ [(⟨sid, newGeocodeQuery addr⟩ : QueueItem)]).map QueueItem.id := by
              simp only [List.map_append, List.mem_append, List.map_cons, List.map_nil,
                List.mem_singleton]
              rintro (hmem | hmem)
              · exact hq hmem
              · exact hne hmem.symm
            have hrq := releaseQuota_idFree s
              { st with queue := st.queue ++ [(⟨sid, newGeocodeQuery addr⟩ : QueueItem)] } 0 id hq' hi
            exact ⟨⟨hrq.1.1, hrq.1.2⟩, hrq.2⟩
  | fire w =>
      simp only [step]
      unfold fireStep
      split
      · exact ⟨⟨hq, hi⟩, fun call hc => absurd hc (List.not_mem_nil call)⟩
      · have hrq := releaseQuota_idFree s
          { st with ctx := { st.ctx with pending := st.ctx.pending - 1 },
                    tracked := st.tracked && !w } 1 id hq hi
        exact ⟨⟨hrq.1.1, hrq.1.2⟩, hrq.2⟩
  | respond rid data =>
      simp only [step]
      unfold respondStep
      split
      · exact ⟨⟨hq, hi⟩, fun call hc => absurd hc (List.not_mem_nil call)⟩
      · rename_i item hfind
        have hitem : item ∈ st.ctx.inflight := List.mem_of_find?_eq_some hfind
        have hidne : item.id ≠ id := by
          intro he
          exact hi (List.mem_map.mpr ⟨item, hitem, he⟩)
        constructor
        · constructor
          · rw [(completeRequest_skeleton _ _ _ _ _).2.1]
            exact hq
          · rw [(completeRequest_skeleton _ _ _ _ _).2.2]
            intro hmem
            rcases List.mem_map.mp hmem with ⟨x, hx, hxid⟩
            exact hi (List.mem_map.mpr ⟨x, List.mem_of_mem_filter hx, hxid⟩)
        · intro call hc
          rw [(completeRequest_calls _ _ _ _ _ call hc).1]
          exact hidne
  | doReset =>
      simp only [step]
      refine ⟨⟨?_, hi⟩, fun call hc => absurd hc (List.not_mem_nil call)⟩
      simp [reset]
  | doInject locs rst =>
      simp only [step]
      exact ⟨⟨hq, hi⟩, fun call hc => absurd hc (List.not_mem_nil call)⟩
  | doRemove pred =>
      simp only [step]
      exact ⟨⟨hq, hi⟩, fun call hc => absurd hc (List.not_mem_nil call)⟩
  | doInitCache locs =>
      simp only [step]
      exact ⟨⟨hq, hi⟩, fun call hc => absurd hc (List.not_mem_nil call)⟩

theorem runTrace_idFree (s : Settings) (id : Nat) :
    ∀ (evs : List Ev) (st : St), IdFree id st →
      (∀ ev ∈ evs, ∀ a, ev ≠ .submit id a) →
      ∀ call ∈ (runTrace s st evs).2, call.id ≠ id := by
  intro evs
  induction evs with
  | nil => intro st _ _ call hc; cases hc
  | cons ev evs ih =>
      intro st h hev call hc
      have hstep := step_idFree s st ev id h (hev ev (List.mem_cons_self ev evs))
      have hrest : ∀ e ∈ evs, ∀ a, e ≠ Ev.submit id a :=
        fun e he => hev e (List.mem_cons_of_mem ev he)
      simp only [runTrace, List.mem_append] at hc
      rcases hc with hc | hc
      · exact hstep.2 call hc
      · exact ih (step s st ev).1 hstep.1 hrest call hc

end GeoService

namespace GeoService

/-! ### Lemmas about `cacheQuery` eviction -/

/-- The keys the eviction loop of `cacheQuery` deletes: the first
`cacheSize - MaxCacheSize` keys of the hit-count-sorted key list. -/
def evictedKeys (s : Settings) (cache : Cache) : List String :=
  (List.insertionSort (fun a b => hitOf cache a ≤ hitOf cache b) (cache.map Prod.fst)).take
    (cache.length - s.MaxCacheSize)

theorem cacheQuery_eq (s : Settings) (cache : Cache) (q : GeocodeQuery)
    (coordinate : ILocation) :
    cacheQuery s cache q coordinate =
      aset (if cache.length > s.MaxCacheSize + s.MaxCacheSizeOverflow
            then cache.filter (fun p => !(decide (p.1 ∈ evictedKeys s cache)))
            else cache) q.key { query := q, coordinate := coordinate } := by
  unfold cacheQuery evictedKeys
  simp only [List.length_map, foldl_aerase_eq_filter]

theorem sorted_hit (cache : Cache) (ks : List String) :
    (List.insertionSort (fun a b => hitOf cache a ≤ hitOf cache b) ks).Sorted
      (fun a b => hitOf cache a ≤ hitOf cache b) := by
  haveI : IsTotal String (fun a b => hitOf cache a ≤ hitOf cache b) :=
    ⟨fun a b => Nat.le_total _ _⟩
  haveI : IsTrans String (fun a b => hitOf cache a ≤ hitOf cache b) :=
    ⟨fun a b c hab hbc => le_trans hab hbc⟩
  exact List.sorted_insertionSort _ ks

theorem evictedKeys_nodup {s : Settings} {cache : Cache}
    (hnd : (cache.map Prod.fst).Nodup) : (evictedKeys s cache).Nodup := by
  unfold evictedKeys
  refine (List.take_sublist _ _).nodup ?_
  exact (List.perm_insertionSort _ _).nodup_iff.mpr hnd

theorem evictedKeys_sub (s : Settings) (cache : Cache) :
    ∀ x ∈ evictedKeys s cache, x ∈ cache.map Prod.fst := by
  intro x hx
  exact (List.perm_insertionSort _ _).mem_iff.mp (List.mem_of_mem_take hx)

theorem evictedKeys_length (s : Settings) (cache : Cache)
    (h : cache.length > s.MaxCacheSize + s.MaxCacheSizeOverflow) :
    (evictedKeys s cache).length = cache.length - s.MaxCacheSize := by
  unfold evictedKeys
  rw [List.length_take, (List.perm_insertionSort _ _).length_eq, List.length_map]
  omega

theorem keep_length {s : Settings} {cache : Cache}
    (hnd : (cache.map Prod.fst).Nodup)
    (hcond : cache.length > s.MaxCacheSize + s.MaxCacheSizeOverflow) :
    (cache.filter (fun p => !(decide (p.1 ∈ evictedKeys s cache)))).length
      = s.MaxCacheSize := by
  have hsplit : cache.length
      = (cache.filter (fun p => decide (p.1 ∈ evictedKeys s cache))).length
        + (cache.filter (fun p => !(decide (p.1 ∈ evictedKeys s cache)))).length :=
    List.length_eq_length_filter_add (fun p => decide (p.1 ∈ evictedKeys s cache))
  have hin : (cache.filter (fun p => decide (p.1 ∈ evictedKeys s cache))).length
      = (evictedKeys s cache).length :=
    length_filter_key_mem hnd (evictedKeys_nodup hnd) (evictedKeys_sub s cache)
  have hev := evictedKeys_length s cache hcond
  omega

theorem evicted_minimal {s : Settings} {cache : Cache} {a b : String}
    (ha : a ∈ evictedKeys s cache)
    (hb : b ∈ cache.map Prod.fst) (hbk : b ∉ evictedKeys s cache) :
    hitOf cache a ≤ hitOf cache b := by
  have hsorted := sorted_hit cache (cache.map Prod.fst)
  have hbs : b ∈ List.insertionSort (fun a b => hitOf cache a ≤ hitOf cache b)
      (cache.map Prod.fst) :=
    (List.perm_insertionSort _ _).mem_iff.mpr hb
  have hbd : b ∈ (List.insertionSort (fun a b => hitOf cache a ≤ hitOf cache b)
      (cache.map Prod.fst)).drop (cache.length - s.MaxCacheSize) := by
    have := (List.take_append_drop (cache.length - s.MaxCacheSize)
      (List.insertionSort (fun a b => hitOf cache a ≤ hitOf cache b)
        (cache.map Prod.fst)))
    rcases List.mem_append.mp (by rw [this]; exact hbs) with hmem | hmem
    · exact absurd hmem hbk
    · exact hmem
  exact hsorted.rel_of_mem_take_of_mem_drop ha hbd

end GeoService

namespace GeoService

theorem hitOf_of_mem {cache : Cache} {p : String × CacheEntry}
    (hnd : (cache.map Prod.fst).Nodup) (hp : p ∈ cache) :
    hitOf cache p.1 = p.2.query.hits := by
  unfold hitOf
  rw [alookup_eq_some_of_mem hnd hp]

/-! ### Claim C1 -/

/-- C1 counterexample: with `MaxCacheSize = 1` and `MaxCacheSizeOverflow = 1`,
three insertions of distinct keys starting from the empty cache leave 3
entries — more than `MaxCacheSize + 1 = 2` — because the eviction of
`cacheQuery` only runs once the pre-insert size exceeds
`MaxCacheSize + MaxCacheSizeOverflow`.  The claimed bound
`size ≤ MaxCacheSize + 1` immediately after an insertion is therefore false. -/
theorem c1_counterexample :
    (cacheQuery ⟨6, 1, 1⟩
      (cacheQuery ⟨6, 1, 1⟩
        (cacheQuery ⟨6, 1, 1⟩ [] (newGeocodeQuery "a") ⟨0, 0, "", "", ""⟩)
        (newGeocodeQuery "b") ⟨0, 0, "", "", ""⟩)
      (newGeocodeQuery "c") ⟨0, 0, "", "", ""⟩).length = 3 ∧
    ¬ (3 ≤ (⟨6, 1, 1⟩ : Settings).MaxCacheSize + 1) := by
  exact ⟨by decide, by decide⟩

/-- C1 (amended): immediately after any insertion the cache size is at most
`MaxCacheSize + MaxCacheSizeOverflow + 1` (eviction trims the cache down to
`MaxCacheSize` before the new entry is added whenever the pre-insert size
exceeds `MaxCacheSize + MaxCacheSizeOverflow`). -/
theorem c1_cache_bound_amended (s : Settings) (cache : Cache) (q : GeocodeQuery)
    (coordinate : ILocation) (hnd : (cache.map Prod.fst).Nodup) :
    (cacheQuery s cache q coordinate).length
      ≤ s.MaxCacheSize + s.MaxCacheSizeOverflow + 1 := by
  rw [cacheQuery_eq]
  by_cases hcond : cache.length > s.MaxCacheSize + s.MaxCacheSizeOverflow
  · rw [if_pos hcond]
    have h1 := keep_length hnd hcond
    have h2 := length_aset_le
      (cache.filter (fun p => !(decide (p.1 ∈ evictedKeys s cache)))) q.key
      ⟨q, coordinate⟩
    omega
  · rw [if_neg hcond]
    have h2 := length_aset_le cache q.key ⟨q, coordinate⟩
    omega

/-- Witness for `c1_cache_bound_amended`: inserting into a concrete two-entry
cache under the default settings respects the amended bound. -/
theorem c1_cache_bound_amended_witness :
    (([("x", ⟨⟨"x", "x", 4⟩, ⟨0, 0, "", "", ""⟩⟩),
       ("y", ⟨⟨"y", "y", 1⟩, ⟨0, 0, "", "", ""⟩⟩)] : Cache).map Prod.fst).Nodup ∧
    (cacheQuery defaultSettings
      [("x", ⟨⟨"x", "x", 4⟩, ⟨0, 0, "", "", ""⟩⟩),
       ("y", ⟨⟨"y", "y", 1⟩, ⟨0, 0, "", "", ""⟩⟩)]
      (newGeocodeQuery "z") ⟨0, 0, "", "", ""⟩).length
      ≤ defaultSettings.MaxCacheSize + defaultSettings.MaxCacheSizeOverflow + 1 :=
  ⟨by decide,
   c1_cache_bound_amended defaultSettings
     [("x", ⟨⟨"x", "x", 4⟩, ⟨0, 0, "", "", ""⟩⟩),
      ("y", ⟨⟨"y", "y", 1⟩, ⟨0, 0, "", "", ""⟩⟩)]
     (newGeocodeQuery "z") ⟨0, 0, "", "", ""⟩ (by decide)⟩

end GeoService

namespace GeoService

/-! ### Claim C3 -/

theorem mem_kept_iff {s : Settings} {cache : Cache} {p : String × CacheEntry} :
    p ∈ cache.filter (fun x => !(decide (x.1 ∈ evictedKeys s cache)))
      ↔ p ∈ cache ∧ p.1 ∉ evictedKeys s cache := by
  rw [List.mem_filter]
  simp

theorem cacheQuery_mem_old {s : Settings} {cache : Cache} {q : GeocodeQuery}
    {coordinate : ILocation} {p : String × CacheEntry}
    (hcond : cache.length > s.MaxCacheSize + s.MaxCacheSizeOverflow)
    (hnew : q.key ∉ cache.map Prod.fst) (hp : p ∈ cache) :
    p ∈ cacheQuery s cache q coordinate ↔ p.1 ∉ evictedKeys s cache := by
  rw [cacheQuery_eq, if_pos hcond]
  have hpq : p.1 ≠ q.key := by
    intro he
    exact hnew (he ▸ List.mem_map_of_mem Prod.fst hp)
  have hkq : q.key ∉ (cache.filter
      (fun x => !(decide (x.1 ∈ evictedKeys s cache)))).map Prod.fst := by
    intro hmem
    rcases List.mem_map.mp hmem with ⟨x, hx, hxk⟩
    exact hnew (hxk ▸ List.mem_map_of_mem Prod.fst (List.mem_of_mem_filter hx))
  rw [aset_of_not_mem _ hkq, List.mem_append]
  constructor
  · rintro (hmem | hmem)
    · exact (mem_kept_iff.mp hmem).2
    · simp only [List.mem_singleton] at hmem
      exact absurd (congrArg Prod.fst hmem) hpq
  · intro hmem
    exact Or.inl (mem_kept_iff.mpr ⟨hp, hmem⟩)

/-- C3: when inserting a fresh key into a cache whose size exceeds
`MaxCacheSize + MaxCacheSizeOverflow`, the result holds `MaxCacheSize + 1`
entries; exactly `MaxCacheSize` of the old entries survive (so exactly
`size - MaxCacheSize` are removed); and every removed entry's hit count is at
most every surviving entry's hit count (ties broken by the sort's stability). -/
theorem c3_eviction_lowest (s : Settings) (cache : Cache) (q : GeocodeQuery)
    (coordinate : ILocation)
    (hnd : (cache.map Prod.fst).Nodup)
    (hcond : cache.length > s.MaxCacheSize + s.MaxCacheSizeOverflow)
    (hnew : q.key ∉ cache.map Prod.fst) :
    (cacheQuery s cache q coordinate).length = s.MaxCacheSize + 1 ∧
    (cache.filter (fun p => decide (p ∈ cacheQuery s cache q coordinate))).length
      = s.MaxCacheSize ∧
    ∀ p ∈ cache, p ∉ cacheQuery s cache q coordinate →
      ∀ p' ∈ cache, p' ∈ cacheQuery s cache q coordinate →
        p.2.query.hits ≤ p'.2.query.hits := by
  have hkq : q.key ∉ (cache.filter
      (fun x => !(decide (x.1 ∈ evictedKeys s cache)))).map Prod.fst := by
    intro hmem
    rcases List.mem_map.mp hmem with ⟨x, hx, hxk⟩
    exact hnew (hxk ▸ List.mem_map_of_mem Prod.fst (List.mem_of_mem_filter hx))
  refine ⟨?_, ?_, ?_⟩
  · rw [cacheQuery_eq, if_pos hcond, aset_of_not_mem _ hkq, List.length_append]
    rw [keep_length hnd hcond]
    rfl
  · have hcongr : cache.filter (fun p => decide (p ∈ cacheQuery s cache q coordinate))
        = cache.filter (fun p => !(decide (p.1 ∈ evictedKeys s cache))) := by
      apply List.filter_congr
      intro p hp
      have := @cacheQuery_mem_old s cache q coordinate p hcond hnew hp
      by_cases hmem : p ∈ cacheQuery s cache q coordinate
      · simp [hmem, this.mp hmem]
      · have : ¬ p.1 ∉ evictedKeys s cache := fun hcon => hmem (this.mpr hcon)
        simp only [Decidable.not_not] at this
        simp [hmem, this]
    rw [hcongr, keep_length hnd hcond]
  · intro p hp hrem p' hp' hkeep
    have hpe : p.1 ∈ evictedKeys s cache := by
      by_contra hcon
      exact hrem ((@cacheQuery_mem_old s cache q coordinate p hcond hnew hp).mpr hcon)
    have hpe' : p'.1 ∉ evictedKeys s cache :=
      (@cacheQuery_mem_old s cache q coordinate p' hcond hnew hp').mp hkeep
    have := @evicted_minimal s cache p.1 p'.1 hpe (List.mem_map_of_mem Prod.fst hp') hpe'
    rwa [hitOf_of_mem hnd hp, hitOf_of_mem hnd hp'] at this

/-- Witness for `c3_eviction_lowest`, at the spec's example: five entries with
hit counts `[5,0,3,1,8]`, `MaxCacheSize = 3`, `MaxCacheSizeOverflow = 1`; the
insertion evicts exactly the two entries with hit counts `0` and `1`, and the
entries with hit counts `3`, `5` and `8` remain. -/
theorem c3_eviction_lowest_witness :
    (((([("k1", ⟨⟨"k1", "k1", 5⟩, ⟨0, 0, "", "", ""⟩⟩),
        ("k2", ⟨⟨"k2", "k2", 0⟩, ⟨0, 0, "", "", ""⟩⟩),
        ("k3", ⟨⟨"k3", "k3", 3⟩, ⟨0, 0, "", "", ""⟩⟩),
        ("k4", ⟨⟨"k4", "k4", 1⟩, ⟨0, 0, "", "", ""⟩⟩),
        ("k5", ⟨⟨"k5", "k5", 8⟩, ⟨0, 0, "", "", ""⟩⟩)] : Cache).map Prod.fst).Nodup ∧
      ([("k1", ⟨⟨"k1", "k1", 5⟩, ⟨0, 0, "", "", ""⟩⟩),
        ("k2", ⟨⟨"k2", "k2", 0⟩, ⟨0, 0, "", "", ""⟩⟩),
        ("k3", ⟨⟨"k3", "k3", 3⟩, ⟨0, 0, "", "", ""⟩⟩),
        ("k4", ⟨⟨"k4", "k4", 1⟩, ⟨0, 0, "", "", ""⟩⟩),
        ("k5", ⟨⟨"k5", "k5", 8⟩, ⟨0, 0, "", "", ""⟩⟩)] : Cache).length > 3 + 1) ∧
     (cacheQuery ⟨6, 3, 1⟩
        [("k1", ⟨⟨"k1", "k1", 5⟩, ⟨0, 0, "", "", ""⟩⟩),
         ("k2", ⟨⟨"k2", "k2", 0⟩, ⟨0, 0, "", "", ""⟩⟩),
         ("k3", ⟨⟨"k3", "k3", 3⟩, ⟨0, 0, "", "", ""⟩⟩),
         ("k4", ⟨⟨"k4", "k4", 1⟩, ⟨0, 0, "", "", ""⟩⟩),
         ("k5", ⟨⟨"k5", "k5", 8⟩, ⟨0, 0, "", "", ""⟩⟩)]
        (newGeocodeQuery "new") ⟨0, 0, "", "", ""⟩).length = 3 + 1) ∧
    (cacheQuery ⟨6, 3, 1⟩
        [("k1", ⟨⟨"k1", "k1", 5⟩, ⟨0, 0, "", "", ""⟩⟩),
         ("k2", ⟨⟨"k2", "k2", 0⟩, ⟨0, 0, "", "", ""⟩⟩),
         ("k3", ⟨⟨"k3", "k3", 3⟩, ⟨0, 0, "", "", ""⟩⟩),
         ("k4", ⟨⟨"k4", "k4", 1⟩, ⟨0, 0, "", "", ""⟩⟩),
         ("k5", ⟨⟨"k5", "k5", 8⟩, ⟨0, 0, "", "", ""⟩⟩)]
        (newGeocodeQuery "new") ⟨0, 0, "", "", ""⟩).map
      (fun p => (p.1, p.2.query.hits))
      = [("k1", 5), ("k3", 3), ("k5", 8), ("new", 0)] := by
  refine ⟨⟨⟨by decide, by decide⟩, ?_⟩, by decide⟩
  exact (c3_eviction_lowest ⟨6, 3, 1⟩
    [("k1", ⟨⟨"k1", "k1", 5⟩, ⟨0, 0, "", "", ""⟩⟩),
     ("k2", ⟨⟨"k2", "k2", 0⟩, ⟨0, 0, "", "", ""⟩⟩),
     ("k3", ⟨⟨"k3", "k3", 3⟩, ⟨0, 0, "", "", ""⟩⟩),
     ("k4", ⟨⟨"k4", "k4", 1⟩, ⟨0, 0, "", "", ""⟩⟩),
     ("k5", ⟨⟨"k5", "k5", 8⟩, ⟨0, 0, "", "", ""⟩⟩)]
    (newGeocodeQuery "new") ⟨0, 0, "", "", ""⟩ (by decide) (by decide) (by decide)).1

end GeoService

namespace GeoService

/-! ### Claim C2 -/

/-- C2: over any sequence of observable events starting from the initial
state — submissions, timer firings, provider responses, resets, override
edits — the in-flight counter `activeRequests` never exceeds
`settings.MaxAzureRequest`, because the dispatch loop of `releaseQuota`
increments it only while it is strictly below the cap. -/
theorem c2_active_le_cap (s : Settings) (evs : List Ev) :
    (runTrace s initialState evs).1.active ≤ (s.MaxAzureRequest : Int) :=
  runTrace_active_le s evs initialState (Int.natCast_nonneg _)

/-! ### Claim C4 -/

/-- C4 (code bug): for a provider response with a non-empty result list the
service does not deliver the mapped first candidate.  Line 281 calls
`getBestResultIndexAzure`, an identifier defined nowhere in the repository
(line 323 defines `getBestResultIndex`), so the handler throws, the `.catch`
completes the item with `undefined`, and nothing is cached: (1) the handler
yields the ReferenceError; (2)–(3) a trace that dispatches a request and
receives a one-candidate response invokes the completion with an absent
location and leaves the cache empty; (4)–(6) the intended handler — selection
through the `getBestResultIndex` the file defines, always index 0 — would
deliver exactly the Location the claim describes: latitude/longitude from the
candidate's position, type defaulting to "Geography", name by the fallback
chain poi name / formatted address / query text, and address the query text. -/
theorem c4_success_path_throws :
    handleResponse ⟨7, newGeocodeQuery "addr"⟩ (some [⟨1, 2, none, none, none⟩])
      = (some .referenceError, none) ∧
    (runTrace defaultSettings initialState
      [.submit 7 "addr", .respond 7 (some [⟨1, 2, none, none, none⟩])]).2
      = [⟨7, "addr", none⟩] ∧
    getCacheSize (runTrace defaultSettings initialState
      [.submit 7 "addr", .respond 7 (some [⟨1, 2, none, none, none⟩])]).1 = 0 ∧
    handleResponseIntended ⟨7, newGeocodeQuery "addr"⟩ (some [⟨1, 2, none, none, none⟩])
      = (none, some ⟨1, 2, "Geography", "addr", "addr"⟩) ∧
    handleResponseIntended ⟨8, newGeocodeQuery "q"⟩
        (some [⟨3, 4, some "POI", some "PoiName", some "FormattedAddr"⟩,
               ⟨9, 9, none, none, none⟩])
      = (none, some ⟨3, 4, "POI", "PoiName", "q"⟩) ∧
    handleResponseIntended ⟨9, newGeocodeQuery "q2"⟩
        (some [⟨5, 6, none, none, some "FormattedAddr"⟩])
      = (none, some ⟨5, 6, "Geography", "FormattedAddr", "q2"⟩) :=
  ⟨by decide, by decide, by decide, by decide, by decide, by decide⟩

/-! ### Claim C5 -/

/-- C5: a dispatched request that fails — transport error (`data = none`) or
empty provider result (`data = some []`) — completes its item with an absent
location, and the adaptive cache is left unchanged (so `getCacheSize` is the
same before and after). -/
theorem c5_failure_uncached (s : Settings) (st : St) (id : Nat)
    (data : Option (List Candidate)) (item : QueueItem)
    (hfind : st.ctx.inflight.find? (fun it => it.id == id) = some item)
    (hfail : data = none ∨ data = some []) :
    (respondStep s st id data).1.ctx.cache = st.ctx.cache ∧
    getCacheSize (respondStep s st id data).1 = getCacheSize st ∧
    (respondStep s st id data).2
      = [{ id := item.id, text := item.query.query, loc := none }] := by
  rcases hfail with rfl | rfl
  · simp only [respondStep, hfind, handleResponse]
    refine ⟨(completeRequest_error s _ item _ none).1, ?_,
      (completeRequest_error s _ item _ none).2⟩
    unfold getCacheSize
    rw [(completeRequest_error s _ item _ none).1]
  · simp only [respondStep, hfind, handleResponse, List.length_nil, Nat.zero_lt_one,
      if_pos]
    refine ⟨(completeRequest_error s _ item _ none).1, ?_,
      (completeRequest_error s _ item _ none).2⟩
    unfold getCacheSize
    rw [(completeRequest_error s _ item _ none).1]

/-- Witness for `c5_failure_uncached`: a concrete state with one cached entry
and one in-flight item whose provider response is empty. -/
theorem c5_failure_uncached_witness :
    ((([⟨9, newGeocodeQuery "z"⟩] : List QueueItem).find? (fun it => it.id == 9)
        = some ⟨9, newGeocodeQuery "z"⟩ ∧
      ((some ([] : List Candidate)) = none ∨ some ([] : List Candidate) = some [])) ∧
     (respondStep defaultSettings
        ⟨[], [], ⟨[("w", ⟨⟨"w", "w", 2⟩, ⟨0, 0, "", "", ""⟩⟩)], [⟨9, newGeocodeQuery "z"⟩], 0⟩,
         [], 3, false⟩ 9 (some [])).1.ctx.cache
       = [("w", ⟨⟨"w", "w", 2⟩, ⟨0, 0, "", "", ""⟩⟩)]) ∧
    (respondStep defaultSettings
        ⟨[], [], ⟨[("w", ⟨⟨"w", "w", 2⟩, ⟨0, 0, "", "", ""⟩⟩)], [⟨9, newGeocodeQuery "z"⟩], 0⟩,
         [], 3, false⟩ 9 (some [])).2
      = [{ id := 9, text := "z", loc := none }] :=
  ⟨⟨⟨by decide, Or.inr rfl⟩,
    (c5_failure_uncached defaultSettings
      ⟨[], [], ⟨[("w", ⟨⟨"w", "w", 2⟩, ⟨0, 0, "", "", ""⟩⟩)], [⟨9, newGeocodeQuery "z"⟩], 0⟩,
       [], 3, false⟩ 9 (some []) ⟨9, newGeocodeQuery "z"⟩ (by decide) (Or.inr rfl)).1⟩,
   (c5_failure_uncached defaultSettings
      ⟨[], [], ⟨[("w", ⟨⟨"w", "w", 2⟩, ⟨0, 0, "", "", ""⟩⟩)], [⟨9, newGeocodeQuery "z"⟩], 0⟩,
       [], 3, false⟩ 9 (some []) ⟨9, newGeocodeQuery "z"⟩ (by decide) (Or.inr rfl)).2.2⟩

/-! ### Claim C6 -/

/-- C6: dispatch is strictly FIFO.  In general, the items the drain loop hands
to `makeRequest`, in order, followed by the remaining queue, reconstruct the
original queue — dispatch always removes a prefix, oldest first.  In
particular, with Q1, Q2, Q3 queued at capacity (`active = 6`, cap 6) and one
slot freed (`releaseQuota(1)` runs the loop at `active = 5`), exactly Q1 is
dispatched and Q2, Q3 remain queued in order. -/
theorem c6_fifo_dispatch :
    (∀ (cap : Nat) (a : Int) (c : Ctx) (q : List QueueItem),
      (drainGo cap a c q).dispatched ++ (drainGo cap a c q).queue = q) ∧
    (drainGo 6 (6 - 1) ⟨[], [], 0⟩
        [⟨1, newGeocodeQuery "Q1"⟩, ⟨2, newGeocodeQuery "Q2"⟩,
         ⟨3, newGeocodeQuery "Q3"⟩]).dispatched
      = [⟨1, newGeocodeQuery "Q1"⟩] ∧
    (drainGo 6 (6 - 1) ⟨[], [], 0⟩
        [⟨1, newGeocodeQuery "Q1"⟩, ⟨2, newGeocodeQuery "Q2"⟩,
         ⟨3, newGeocodeQuery "Q3"⟩]).queue
      = [⟨2, newGeocodeQuery "Q2"⟩, ⟨3, newGeocodeQuery "Q3"⟩] :=
  ⟨drainGo_dispatched_append, by decide, by decide⟩

/-! ### Claim C7 -/

/-- C7: an address present in the OverrideStore (with a truthy value) wins in
both lookup modes, whatever the snapshot cache and the adaptive cache hold:
the synchronous `query(addr)` returns the stored override unchanged, and the
asynchronous `query(addr, then)` invokes the callback within the call with the
override (its `address` field rewritten to the requested text). -/
theorem c7_override_precedence (s : Settings) (st : St) (addr : String)
    (v : ILocation) (id : Nat)
    (h : alookup st.injected addr = some (some v)) :
    (querySync st addr).1 = some v ∧
    (queryAsync s st id addr).2
      = [{ id := id, text := addr, loc := some { v with address := addr } }] := by
  constructor
  · simp only [querySync, h]
  · simp only [queryAsync, h]

end GeoService

namespace GeoService

/-- Witness for `c7_override_precedence`: the override entry for "K" wins even
though the snapshot cache holds a conflicting entry for "K" and the adaptive
cache holds a conflicting entry under the normalized key "k". -/
theorem c7_override_precedence_witness :
    alookup ([("K", some (⟨1, 1, "t", "n", "a0"⟩ : ILocation))]) "K"
      = some (some ⟨1, 1, "t", "n", "a0"⟩) ∧
    (querySync ⟨[("K", some ⟨1, 1, "t", "n", "a0"⟩)], [("K", ⟨2, 2, "t", "n", "b0"⟩)],
        ⟨[("k", ⟨⟨"k", "k", 0⟩, ⟨3, 3, "t", "n", "c0"⟩⟩)], [], 0⟩, [], 0, false⟩ "K").1
      = some ⟨1, 1, "t", "n", "a0"⟩ ∧
    (queryAsync defaultSettings
        ⟨[("K", some ⟨1, 1, "t", "n", "a0"⟩)], [("K", ⟨2, 2, "t", "n", "b0"⟩)],
         ⟨[("k", ⟨⟨"k", "k", 0⟩, ⟨3, 3, "t", "n", "c0"⟩⟩)], [], 0⟩, [], 0, false⟩ 4 "K").2
      = [{ id := 4, text := "K", loc := some ⟨1, 1, "t", "n", "K"⟩ }] :=
  ⟨by decide,
   (c7_override_precedence defaultSettings
     ⟨[("K", some ⟨1, 1, "t", "n", "a0"⟩)], [("K", ⟨2, 2, "t", "n", "b0"⟩)],
      ⟨[("k", ⟨⟨"k", "k", 0⟩, ⟨3, 3, "t", "n", "c0"⟩⟩)], [], 0⟩, [], 0, false⟩ "K"
     ⟨1, 1, "t", "n", "a0"⟩ 4 (by decide)).1,
   (c7_override_precedence defaultSettings
     ⟨[("K", some ⟨1, 1, "t", "n", "a0"⟩)], [("K", ⟨2, 2, "t", "n", "b0"⟩)],
      ⟨[("k", ⟨⟨"k", "k", 0⟩, ⟨3, 3, "t", "n", "c0"⟩⟩)], [], 0⟩, [], 0, false⟩ "K"
     ⟨1, 1, "t", "n", "a0"⟩ 4 (by decide)).2⟩

/-! ### Claim C8 -/

/-- C8: every location any event step delivers to a callback carries the
originally requested address text in its `address` field (`Call.text` records
the text the callback's closure captured) — covering override and snapshot
hits, adaptive-cache hits at submit and at dispatch time, and provider
completions. -/
theorem c8_address_rewrite (s : Settings) (st : St) (ev : Ev) (call : Call)
    (l : ILocation) (hc : call ∈ (step s st ev).2) (hl : call.loc = some l) :
    l.address = call.text :=
  step_calls_addrok s st ev call hc l hl

/-- The state of Scenario B: `inject {"123 Main St" ↦ L}` in merge mode,
starting from the initial state. -/
def c8State : St :=
  { initialState with
    injected := inject [("123 Main St", some ⟨10, 20, "T", "N", "orig"⟩)] false [] }

/-- The single callback invocation Scenario B produces. -/
def c8Call : Call := ⟨3, "123 Main St", some ⟨10, 20, "T", "N", "123 Main St"⟩⟩

/-- Witness for `c8_address_rewrite` (Scenario B): after the override is
injected, submitting "123 Main St" invokes the callback within the call, with
a location whose `address` equals "123 Main St". -/
theorem c8_address_rewrite_witness :
    c8Call ∈ (step defaultSettings c8State (.submit 3 "123 Main St")).2 ∧
    c8Call.loc = some (⟨10, 20, "T", "N", "123 Main St"⟩ : ILocation) ∧
    (⟨10, 20, "T", "N", "123 Main St"⟩ : ILocation).address = c8Call.text ∧
    c8Call.text = "123 Main St" ∧
    (step defaultSettings c8State (.submit 3 "123 Main St")).2 = [c8Call] :=
  ⟨by decide, by decide,
   c8_address_rewrite defaultSettings c8State (.submit 3 "123 Main St") c8Call
     ⟨10, 20, "T", "N", "123 Main St"⟩ (by decide) (by decide),
   by decide, by decide⟩

/-! ### Claim C9 -/

/-- C9 counterexample: `reset()` does not cancel every pending scheduled
release.  Two dispatched requests both fail; each `completeRequest` schedules a
`releaseQuota(1)` timeout and stores it in `dequeueTimeoutId`, the second
overwriting (not cancelling) the first handle.  `reset()` clears only the
handle it still holds, so one scheduled release survives (`pending = 1`), and
when it later fires it drives `activeRequests` to `-1`. -/
theorem c9_counterexample :
    (runTrace defaultSettings initialState
      [.submit 1 "x", .submit 2 "y", .respond 1 (some []), .respond 2 (some []),
       .doReset]).1.ctx.pending = 1 ∧
    (runTrace defaultSettings initialState
      [.submit 1 "x", .submit 2 "y", .respond 1 (some []), .respond 2 (some []),
       .doReset, .fire false]).1.active = -1 :=
  ⟨by decide, by decide⟩

/-- C9 (amended): after `reset()` the cache size is 0, the queue is empty,
`activeRequests` is 0, the timeout handle is cleared and the single pending
release it named (when it named one) is cancelled — pending releases without a
stored handle survive; and the completion of an item queued but undispatched at
reset time is never invoked by any later events, provided its id is not
resubmitted. -/
theorem c9_reset_amended (s : Settings) (st : St) (id : Nat) (evs : List Ev)
    (hq : id ∈ st.queue.map QueueItem.id)
    (hinf : id ∉ st.ctx.inflight.map QueueItem.id)
    (hns : ∀ ev ∈ evs, ∀ a, ev ≠ .submit id a) :
    getCacheSize (reset st) = 0 ∧
    (reset st).queue = [] ∧
    (reset st).active = 0 ∧
    (reset st).tracked = false ∧
    (reset st).ctx.pending = st.ctx.pending - (if st.tracked then 1 else 0) ∧
    ∀ call ∈ (runTrace s (reset st) evs).2, call.id ≠ id := by
  refine ⟨rfl, rfl, rfl, rfl, rfl, ?_⟩
  refine runTrace_idFree s id evs (reset st) ⟨?_, ?_⟩ hns
  · simp [reset]
  · exact hinf

/-- Witness for `c9_reset_amended`: a concrete state with a queued item (id 5),
two pending releases of which the tracked one is cancelled, followed by later
events that never resubmit id 5. -/
theorem c9_reset_amended_witness :
    ((5 ∈ ([(⟨5, newGeocodeQuery "p"⟩ : QueueItem)].map QueueItem.id) ∧
      5 ∉ (([] : List QueueItem).map QueueItem.id)) ∧
     getCacheSize (reset ⟨[], [], ⟨[("w", ⟨⟨"w", "w", 1⟩, ⟨0, 0, "", "", ""⟩⟩)], [], 2⟩,
        [⟨5, newGeocodeQuery "p"⟩], 6, true⟩) = 0 ∧
     (reset ⟨[], [], ⟨[("w", ⟨⟨"w", "w", 1⟩, ⟨0, 0, "", "", ""⟩⟩)], [], 2⟩,
        [⟨5, newGeocodeQuery "p"⟩], 6, true⟩).ctx.pending = 1) ∧
    ∀ call ∈ (runTrace defaultSettings
        (reset ⟨[], [], ⟨[("w", ⟨⟨"w", "w", 1⟩, ⟨0, 0, "", "", ""⟩⟩)], [], 2⟩,
          [⟨5, newGeocodeQuery "p"⟩], 6, true⟩)
        [.fire false, .submit 7 "w", .respond 9 none]).2, call.id ≠ 5 := by
  have hns : ∀ ev ∈ ([.fire false, .submit 7 "w", .respond 9 none] : List Ev),
      ∀ a, ev ≠ .submit 5 a := by
    intro ev hev a
    rcases hev with _ | ⟨_, hev⟩
    · intro h
      cases h
    · rcases hev with _ | ⟨_, hev⟩
      · intro h
        injection h with h1 h2
        exact absurd h1 (by decide)
      · rcases hev with _ | ⟨_, hev⟩
        · intro h
          cases h
        · cases hev
  have happ := c9_reset_amended defaultSettings
    ⟨[], [], ⟨[("w", ⟨⟨"w", "w", 1⟩, ⟨0, 0, "", "", ""⟩⟩)], [], 2⟩,
      [⟨5, newGeocodeQuery "p"⟩], 6, true⟩ 5
    [.fire false, .submit 7 "w", .respond 9 none] (by decide) (by decide) hns
  exact ⟨⟨⟨by decide, by decide⟩, happ.1, by decide⟩, happ.2.2.2.2.2⟩

end GeoService

namespace GeoService

/-! ### Claim C10 -/

/-- C10 counterexample: `inject` with `reset = true` installs the supplied
table wholesale, falsy values included.  After `inject({"a": null}, true)` the
store maps the present key "a" to a falsy value, and the lookup path's
truthiness test then fails although the key is present: the synchronous lookup
falls through to the snapshot cache. -/
theorem c10_counterexample :
    alookup (inject [("a", none)] true []) "a" = some none ∧
    (inject [("a", none)] true []).map Prod.fst = ["a"] ∧
    (querySync ⟨inject [("a", none)] true [], [("a", ⟨5, 5, "t", "n", "snap"⟩)],
        ⟨[], [], 0⟩, [], 0, false⟩ "a").1 = some ⟨5, 5, "t", "n", "snap"⟩ :=
  ⟨by decide, by decide, by decide⟩

/-- One mutation of the override store: a `setOverrides` (`inject`) call or a
`removeOverrides` (`remove`) call. -/
inductive OverrideOp where
  | setAll (locs : List (String × Option ILocation)) (rst : Bool)
  | removeW (pred : Option ILocation → Bool)

/-- Apply a sequence of override-store mutations. -/
def applyOverrideOps (ops : List OverrideOp)
    (inj : List (String × Option ILocation)) : List (String × Option ILocation) :=
  ops.foldl
    (fun m op =>
      match op with
      | .setAll locs rst => inject locs rst m
      | .removeW pred => removeWhere pred m)
    inj

/-- The store holds no falsy (absent) values. -/
def NoFalsy (m : List (String × Option ILocation)) : Prop :=
  ∀ p ∈ m, p.2.isSome

theorem aset_noFalsy {m : List (String × Option ILocation)} {k : String}
    {v : ILocation} (h : NoFalsy m) : NoFalsy (aset m k (some v)) := by
  unfold aset
  split
  · intro p hp
    rcases List.mem_map.mp hp with ⟨q, hq, hqe⟩
    by_cases hk : q.1 == k
    · simp only [hk, if_pos] at hqe
      rw [← hqe]
      rfl
    · simp only [Bool.not_eq_true] at hk
      simp only [hk, Bool.false_eq_true, if_false] at hqe
      exact hqe ▸ h q hq
  · intro p hp
    rcases List.mem_append.mp hp with hp | hp
    · exact h p hp
    · simp only [List.mem_singleton] at hp
      rw [hp]
      rfl

theorem aerase_noFalsy {m : List (String × Option ILocation)} {k : String}
    (h : NoFalsy m) : NoFalsy (aerase m k) :=
  fun p hp => h p (List.mem_of_mem_filter hp)

theorem inject_merge_noFalsy (locs : List (String × Option ILocation))
    {m : List (String × Option ILocation)} (h : NoFalsy m) :
    NoFalsy (inject locs false m) := by
  unfold inject
  rw [if_neg (by simp)]
  induction locs generalizing m with
  | nil => exact h
  | cons kv locs ih =>
      rw [List.foldl_cons]
      cases hv : kv.2 with
      | some v =>
          simp only [hv]
          exact ih (aset_noFalsy h)
      | none =>
          simp only [hv]
          exact ih (aerase_noFalsy h)

theorem removeWhere_noFalsy (pred : Option ILocation → Bool)
    {m : List (String × Option ILocation)} (h : NoFalsy m) :
    NoFalsy (removeWhere pred m) :=
  fun p hp => h p (List.mem_of_mem_filter hp)

theorem applyOverrideOps_noFalsy :
    ∀ (ops : List OverrideOp) (inj : List (String × Option ILocation)),
      NoFalsy inj →
      (∀ op ∈ ops, ∀ locs, op = .setAll locs true → NoFalsy locs) →
      NoFalsy (applyOverrideOps ops inj) := by
  intro ops
  unfold applyOverrideOps
  induction ops with
  | nil =>
      intro inj h0 _
      exact h0
  | cons op ops ih =>
      intro inj h0 hres
      rw [List.foldl_cons]
      have hres' : ∀ o ∈ ops, ∀ locs, o = .setAll locs true → NoFalsy locs :=
        fun o ho => hres o (List.mem_cons_of_mem op ho)
      cases op with
      | setAll locs rst =>
          cases rst with
          | false => exact ih (inject locs false inj) (inject_merge_noFalsy locs h0) hres'
          | true =>
              have hlocs : NoFalsy locs :=
                hres _ (List.mem_cons_self _ _) locs rfl
              have hinj : NoFalsy (inject locs true inj) := by
                unfold inject
                rw [if_pos rfl]
                exact hlocs
              exact ih (inject locs true inj) hinj hres'
      | removeW pred =>
          exact ih (removeWhere pred inj) (removeWhere_noFalsy pred h0) hres'

theorem alookup_value_of_mem {m : List (String × α)} {k : String} {o : α}
    (h : alookup m k = some o) : ∃ p ∈ m, p.2 = o := by
  unfold alookup at h
  rcases hf : m.find? (fun p => p.1 == k) with _ | p
  · rw [hf] at h
    cases h
  · rw [hf] at h
    simp only [Option.map_some'] at h
    exact ⟨p, List.mem_of_find?_eq_some hf, by injection h⟩

/-- C10 (amended): starting from a store with no falsy values, any sequence of
merge-mode `setOverrides` calls (`reset = false`, arbitrary maps — a falsy
value in a merge deletes the key instead of being stored), `removeOverrides`
calls, and wholesale resets whose maps carry no falsy values leaves the store
falsy-free, so the truthiness test the lookup path uses succeeds exactly when
the key is present.  (A wholesale reset with a falsy value in its map violates
the invariant, as the counterexample shows.) -/
theorem c10_no_falsy_amended (ops : List OverrideOp)
    (inj : List (String × Option ILocation)) (h0 : NoFalsy inj)
    (hres : ∀ op ∈ ops, ∀ locs, op = .setAll locs true → NoFalsy locs) :
    NoFalsy (applyOverrideOps ops inj) ∧
    ∀ a, (∃ v, alookup (applyOverrideOps ops inj) a = some (some v))
      ↔ a ∈ (applyOverrideOps ops inj).map Prod.fst := by
  have hmain : NoFalsy (applyOverrideOps ops inj) :=
    applyOverrideOps_noFalsy ops inj h0 hres
  refine ⟨hmain, ?_⟩
  intro a
  constructor
  · rintro ⟨v, hv⟩
    rw [← alookup_isSome_iff, hv]
    rfl
  · intro hmem
    rcases Option.isSome_iff_exists.mp ((alookup_isSome_iff _ _).mpr hmem) with ⟨o, ho⟩
    rcases alookup_value_of_mem ho with ⟨p, hp, hpe⟩
    rcases Option.isSome_iff_exists.mp (hmain p hp) with ⟨v, hv⟩
    exact ⟨v, by rw [ho, ← hpe, hv]⟩

/-- Witness for `c10_no_falsy_amended`: a merge that stores one key and deletes
another, a predicate-based removal, and a falsy-free wholesale reset, starting
from the empty store. -/
theorem c10_no_falsy_amended_witness :
    (NoFalsy ([] : List (String × Option ILocation)) ∧
     applyOverrideOps
       [.setAll [("a", some ⟨1, 1, "t", "n", "a"⟩), ("b", none)] false,
        .removeW (fun _ => false),
        .setAll [("c", some ⟨2, 2, "t", "n", "c"⟩)] true] [] =
       [("c", some ⟨2, 2, "t", "n", "c"⟩)]) ∧
    NoFalsy (applyOverrideOps
       [.setAll [("a", some ⟨1, 1, "t", "n", "a"⟩), ("b", none)] false,
        .removeW (fun _ => false),
        .setAll [("c", some ⟨2, 2, "t", "n", "c"⟩)] true] []) ∧
    ∀ a, (∃ v, alookup (applyOverrideOps
       [.setAll [("a", some ⟨1, 1, "t", "n", "a"⟩), ("b", none)] false,
        .removeW (fun _ => false),
        .setAll [("c", some ⟨2, 2, "t", "n", "c"⟩)] true] []) a = some (some v))
      ↔ a ∈ (applyOverrideOps
       [.setAll [("a", some ⟨1, 1, "t", "n", "a"⟩), ("b", none)] false,
        .removeW (fun _ => false),
        .setAll [("c", some ⟨2, 2, "t", "n", "c"⟩)] true] []).map Prod.fst := by
  have hres : ∀ op ∈ ([.setAll [("a", some ⟨1, 1, "t", "n", "a"⟩), ("b", none)] false,
        .removeW (fun _ => false),
        .setAll [("c", some (⟨2, 2, "t", "n", "c"⟩ : ILocation))] true] : List OverrideOp),
      ∀ locs, op = .setAll locs true → NoFalsy locs := by
    intro op hop locs heq
    rcases hop with _ | ⟨_, hop⟩
    · injection heq with h1 h2
      exact absurd h2.symm (by decide)
    · rcases hop with _ | ⟨_, hop⟩
      · cases heq
      · rcases hop with _ | ⟨_, hop⟩
        · injection heq with h1 h2
          subst h1
          intro p hp
          rcases List.mem_singleton.mp hp with rfl
          rfl
        · cases hop
  have happ := c10_no_falsy_amended
    [.setAll [("a", some ⟨1, 1, "t", "n", "a"⟩), ("b", none)] false,
     .removeW (fun _ => false),
     .setAll [("c", some ⟨2, 2, "t", "n", "c"⟩)] true] []
    (fun p hp => absurd hp (List.not_mem_nil p)) hres
  exact ⟨⟨fun p hp => absurd hp (List.not_mem_nil p), by decide⟩, happ.1, happ.2⟩

end GeoService
